import Mathlib

/-!
Verification of the codezone execution subsystem.

Strings are modelled as lists of characters (`Str`); the Go standard-library
operations used by the source (strings.TrimSpace, strings.Split, strings.Join,
strings.Contains, strings.Index, strings.HasPrefix, strings.ToLower,
strings.Replace with count 1) are given faithful executable definitions below,
restricted to the ASCII inputs the executors actually handle.
-/

namespace Codezone

abbrev Str := List Char

/-- Whitespace predicate of Go unicode.IsSpace restricted to ASCII. -/
def goIsSpace (c : Char) : Bool :=
  c = ' ' || c = '\t' || c = '\n' || c = '\x0b' || c = '\x0c' || c = '\r'

/-- Go strings.TrimSpace, left side. -/
def trimLeft (s : Str) : Str := s.dropWhile goIsSpace

/-- Go strings.TrimSpace, right side. -/
def trimRight (s : Str) : Str := (s.reverse.dropWhile goIsSpace).reverse

/-- Go strings.TrimSpace. -/
def trimSpace (s : Str) : Str := trimRight (trimLeft s)

/-- Go strings.HasPrefix pat applied to s: pat starts s. -/
def startsWith : Str → Str → Bool
  | [], _ => true
  | _ :: _, [] => false
  | p :: ps, c :: cs => p = c && startsWith ps cs

/-- Go strings.Index: index of the first occurrence of pat in s, none if absent. -/
def findSubstr (pat : Str) : Str → Option Nat
  | [] => if startsWith pat [] then some 0 else none
  | c :: cs =>
    if startsWith pat (c :: cs) then some 0
    else (findSubstr pat cs).map (· + 1)

/-- Go strings.Contains, as a Bool. -/
def containsB (pat s : Str) : Bool := (findSubstr pat s).isSome

/-- Occurrence of pat as a contiguous substring, as a Prop. -/
def Occurs (pat s : Str) : Prop := ∃ l r, s = l ++ pat ++ r

/-- Go strings.Split on a newline separator. -/
def splitOnNL (s : Str) : List Str := s.splitOn '\n'

/-- Go strings.Join with newline separator. -/
def joinNL (ls : List Str) : Str := List.intercalate ['\n'] ls

/-- Go strings.ToLower restricted to ASCII letters. -/
def toLowerChar (c : Char) : Char :=
  if 'A' ≤ c ∧ c ≤ 'Z' then Char.ofNat (c.toNat + 32) else c

/-- Go strings.ToLower on a whole string (ASCII). -/
def toLowerStr (s : Str) : Str := s.map toLowerChar

/-- Go strings.Replace with count 1: replace the first occurrence of pat by repl. -/
def replaceFirst (pat repl s : Str) : Str :=
  match findSubstr pat s with
  | none => s
  | some i => s.take i ++ repl ++ s.drop (i + pat.length)

/-- The two-dash SQL comment marker. -/
def dashdash : Str := ['-', '-']

/-!
PostgreSQL executor: input cleaning (prepareSQLCode in postgres.go).
The Go loop trims each line, drops blank and full-comment lines, truncates
trailing inline comments at the first two-dash marker, drops lines that become
blank, and rejoins the survivors with newlines.
-/

/-- One iteration of the cleaning loop of prepareSQLCode: the cleaned line to
append, or none when the line is skipped. -/
def cleanSQLLine (line : Str) : Option Str :=
  let t := trimSpace line
  if t = [] then none
  else if startsWith dashdash t then none
  else
    match findSubstr dashdash t with
    | some idx =>
      let t2 := trimSpace (t.take idx)
      if t2 = [] then none else some t2
    | none => some t

/-- The list of cleaned lines accumulated by prepareSQLCode. -/
def prepareSQLLines (code : Str) : List Str :=
  (splitOnNL code).filterMap cleanSQLLine

/-- prepareSQLCode from postgres.go: clean the lines and rejoin with newlines. -/
def prepareSQLCode (code : Str) : Str :=
  joinNL (prepareSQLLines code)

/-!
Shared result schema (types.go): the fields of ExecutionResult the executors
set. Durations are wall-clock measurements and are omitted from the model.
-/

/-- Language tags of types.go. -/
def typescriptTag : Str := "typescript".toList

/-- Language tag of the Go executor. -/
def goTag : Str := "go".toList

/-- Language tag of the PostgreSQL executor. -/
def postgresTag : Str := "postgres".toList

/-- The declared legacy JavaScript tag of types.go. -/
def javascriptTag : Str := "javascript".toList

/-- A cell of a marshalled SQL row: none models SQL null, some its rendering. -/
abbrev Cell := Option Str

/-- SQLQueryResult of types.go, with the server-side timing rendered abstractly. -/
structure SQLRes where
  queryType : Str
  columns : List Str
  rows : List (List Cell)
  rowsAffected : Int
  deriving DecidableEq, Repr

/-- ExecutionResult of types.go, without the measured wall-clock fields. -/
structure ExecResult where
  output : Str := []
  error : Str := []
  exitCode : Int := 0
  language : Str := []
  sqlResult : Option SQLRes := none
  deriving DecidableEq, Repr

/-- The reserved exit codes the specification enumerates. -/
def allowedExitCodes : List Int := [0, 1, 2, 124, 150, 151, 152, 153, 160]

/-!
Go executor (golang.go). The ambient effects (toolchain lookup, scratch
directory creation, file write, subprocess run) are abstracted into an
environment record; Execute is the faithful fold of its control flow over that
record.
-/

/-- The error value cmd.Run may yield in golang.go: an ExitError carrying the
child exit status (−1 when signalled), or any other error with its message. -/
inductive GoRunErr where
  | exitErr (code : Int)
  | otherErr (msg : Str)
  deriving DecidableEq, Repr

/-- Outcome of the go run subprocess: captured streams, the error value of
cmd.Run (none on success), and whether the request deadline had elapsed. -/
structure GoRunResult where
  stdout : Str
  stderr : Str
  err : Option GoRunErr
  deadlineExceeded : Bool
  deriving DecidableEq, Repr

/-- Ambient environment of one GoExecutor.Execute call. -/
structure GoEnv where
  goInstalled : Bool
  tempDirErr : Option Str
  writeErr : Option Str
  code : Str
  run : GoRunResult
  deriving DecidableEq, Repr

/-- The marker cleanGoError scans for in diagnostics. -/
def goTmpMarker : Str := "/tmp/codezone-go-".toList

/-- The scratch directory pattern matched against path components. -/
def goTmpPart : Str := "codezone-go-".toList

/-- One line of cleanGoError in golang.go: rewrite a scratch-workspace path to
main.go so diagnostics are portable. -/
def cleanGoLine (line : Str) : Str :=
  if containsB goTmpMarker line then
    let parts := line.splitOn '/'
    match parts.findIdx? (fun part => startsWith goTmpPart part) with
    | none => line
    | some i =>
      let newLine := "main.go".toList ++
        (if i + 1 < parts.length then List.intercalate ['/'] (parts.drop (i + 1)) else [])
      replaceFirst (List.intercalate ['/'] (parts.take (i + 2))) newLine line
  else line

/-- cleanGoError of golang.go: rewrite scratch paths in every stderr line. -/
def cleanGoError (errorText : Str) : Str :=
  joinNL ((splitOnNL errorText).map cleanGoLine)

/-- indentCode of golang.go: one tab in front of every non-blank line. -/
def indentCode (code : Str) : Str :=
  joinNL ((splitOnNL code).map fun line =>
    if trimSpace line ≠ [] then '\t' :: line else line)

/-- Opening text of the generated wrapper program of prepareGoCode. -/
def goWrapHeader : Str := "package main\n\nimport \"fmt\"\n\nfunc main() \x7b\n".toList

/-- Closing text of the generated wrapper program of prepareGoCode. -/
def goWrapFooter : Str := "\n\x7d".toList

/-- The package-declaration marker prepareGoCode scans for. -/
def packageMarker : Str := "package ".toList

/-- The main-function marker prepareGoCode scans for. -/
def funcMainMarker : Str := "func main(".toList

/-- prepareGoCode of golang.go. -/
def prepareGoCode (code : Str) : Str :=
  if containsB packageMarker code then code
  else if containsB funcMainMarker code then "package main\n\n".toList ++ code
  else goWrapHeader ++ indentCode code ++ goWrapFooter

/-- GoExecutor.Execute of golang.go over the abstracted environment. -/
def goExecute (g : GoEnv) : ExecResult :=
  if ¬ g.goInstalled then
    { language := goTag
      error := ("Go is not installed. Please install Go from https://golang.org/dl/" ++
        " or install this package using your system's package manager").toList
      exitCode := 150 }
  else
    match g.tempDirErr with
    | some m =>
      { language := goTag
        error := "Failed to create temp directory: ".toList ++ m
        exitCode := 1 }
    | none =>
      match g.writeErr with
      | some m =>
        { language := goTag
          error := "Failed to write temp file: ".toList ++ m
          exitCode := 1 }
      | none =>
        let base : ExecResult :=
          { language := goTag, output := trimSpace g.run.stdout }
        match g.run.err with
        | none => base
        | some e =>
          if g.run.deadlineExceeded then
            { base with error := "Execution timed out".toList, exitCode := 124 }
          else
            let stderrText := trimSpace g.run.stderr
            let errText :=
              if stderrText ≠ [] then cleanGoError stderrText
              else
                match e with
                | .exitErr n => "exit status ".toList ++ (toString n).toList
                | .otherErr m => m
            let ec : Int :=
              match e with
              | .exitErr n => n
              | .otherErr _ => 1
            { base with error := errText, exitCode := ec }

/-!
TypeScript/JavaScript executor, goja variant (the windows build file that pairs
esbuild transpilation, a node fallback and the embedded goja sandbox). The
transpiler outcome, node probe, node run and sandbox evaluation are abstracted
into an environment record.
-/

/-- Outcome of one sandbox evaluation: whether the deadline fired first, the
evaluation error message if RunString failed (or panicked), the string form of
the final value (none when the value is nil, undefined or null), and the two
console capture buffers. -/
structure JsEval where
  timedOut : Bool
  execErr : Option Str
  value : Option Str
  outputs : List Str
  errors : List Str
  deriving DecidableEq, Repr

/-- Outcome of one node subprocess run. -/
structure NodeRun where
  tempFileErr : Option Str
  combinedOutput : Str
  runFailed : Bool
  deadlineExceeded : Bool
  deriving DecidableEq, Repr

/-- Ambient environment of one TypeScriptExecutor.Execute call. -/
structure TsEnv where
  transpileErrors : List Str
  nodeAvailable : Bool
  node : NodeRun
  goja : JsEval
  deriving DecidableEq, Repr

/-- executeWithGoja: evaluate in a fresh sandbox, join console.log/warn/info
into output, append a meaningful final value, and fold console.error into the
error field. -/
def executeWithGoja (ev : JsEval) : ExecResult :=
  if ev.timedOut then
    { language := typescriptTag
      error := "Execution timed out".toList
      exitCode := 124 }
  else
    let outs :=
      match ev.execErr with
      | some _ => ev.outputs
      | none =>
        match ev.value with
        | some s =>
          if s ≠ "undefined".toList ∧ s ≠ "null".toList then ev.outputs ++ [s]
          else ev.outputs
        | none => ev.outputs
    let err0 : Str :=
      match ev.execErr with
      | some m => m
      | none => []
    let ec : Int := match ev.execErr with | some _ => 1 | none => 0
    let err :=
      if ev.errors ≠ [] then
        if err0 ≠ [] then err0 ++ '\n' :: joinNL ev.errors else joinNL ev.errors
      else err0
    { language := typescriptTag, output := joinNL outs, error := err, exitCode := ec }

/-- executeWithNode: run the transpiled file under the external runtime. -/
def executeWithNode (nodeAvailable : Bool) (nr : NodeRun) : ExecResult :=
  if ¬ nodeAvailable then
    { language := typescriptTag
      error := "Node.js is not available for fallback execution".toList
      exitCode := 160 }
  else
    match nr.tempFileErr with
    | some m =>
      { language := typescriptTag
        error := "Failed to create temp file: ".toList ++ m
        exitCode := 158 }
    | none =>
      if nr.runFailed then
        if nr.deadlineExceeded then
          { language := typescriptTag
            error := "Execution timed out".toList
            exitCode := 124 }
        else
          { language := typescriptTag
            error := nr.combinedOutput
            exitCode := 1 }
      else
        { language := typescriptTag, output := nr.combinedOutput, exitCode := 0 }

/-- The fallback pattern list of isGojaUnsupportedFeatureError. -/
def gojaFallbackPatterns : List Str :=
  ["Unexpected token".toList, "SyntaxError".toList,
   "ReferenceError".toList, "TypeError".toList]

/-- isGojaUnsupportedFeatureError: case-insensitive containment of any
fallback pattern. -/
def isGojaUnsupported (errorMsg : Str) : Bool :=
  gojaFallbackPatterns.any fun pat =>
    containsB (toLowerStr pat) (toLowerStr errorMsg)

/-- The transpile-failure error text of Execute. -/
def tsTranspileMsg (errs : List Str) : Str :=
  "TypeScript transpile error:\n".toList ++ joinNL errs

/-- TypeScriptExecutor.Execute: transpile, prefer node when available, else
run the sandbox and apply the unsupported-feature fallback. -/
def tsExecute (t : TsEnv) : ExecResult :=
  if t.transpileErrors ≠ [] then
    { language := typescriptTag
      error := tsTranspileMsg t.transpileErrors
      exitCode := 2 }
  else if t.nodeAvailable then
    executeWithNode t.nodeAvailable t.node
  else if (executeWithGoja t.goja).exitCode ≠ 0 ∧
      isGojaUnsupported (executeWithGoja t.goja).error = true then
    { language := typescriptTag
      error := "Goja failed to execute the code.".toList
      exitCode := 160 }
  else executeWithGoja t.goja

/-!
PostgreSQL executor (postgres.go). Connection-pool creation and the driver
calls are abstracted into an environment record; Execute is the faithful fold
of its control flow, additionally reporting whether ensureConnection ran.
-/

/-- Outcome of the driver call executeSQL issues. -/
inductive PgQueryOutcome where
  | ok (res : SQLRes)
  | err (msg : Str)
  deriving DecidableEq, Repr

/-- Ambient environment of one PostgreSQLExecutor.Execute call. -/
structure PgEnv where
  available : Bool
  code : Str
  connErr : Option Str
  query : PgQueryOutcome
  deadlineExceeded : Bool
  execTimeStr : Str
  deriving DecidableEq, Repr

/-- Go strings.ToUpper restricted to ASCII letters. -/
def toUpperChar (c : Char) : Char :=
  if 'a' ≤ c ∧ c ≤ 'z' then Char.ofNat (c.toNat - 32) else c

/-- Go strings.ToUpper on a whole string (ASCII). -/
def toUpperStr (s : Str) : Str := s.map toUpperChar

/-- isSelectQuery of postgres.go. -/
def isSelectQuery (queryType : Str) : Bool :=
  let t := trimSpace (toUpperStr queryType)
  startsWith "SELECT".toList t || startsWith "WITH".toList t

/-- A cell as printed by formatQueryOutput: NULL for nil, the rendering else. -/
def renderCell (c : Cell) : Str :=
  match c with
  | none => "NULL".toList
  | some s => s

/-- formatQueryOutput of postgres.go, with the execution-time rendering taken
from the abstract environment (it is a wall-clock measurement). -/
def formatQueryOutput (execTimeStr : Str) (res : SQLRes) : Str :=
  "Query Type: ".toList ++ res.queryType ++ ['\n'] ++
  "Execution Time: ".toList ++ execTimeStr ++ ['\n'] ++
  (if isSelectQuery res.queryType then
    "Rows Returned: ".toList ++ (toString res.rows.length).toList ++ "\n\n".toList ++
    (if res.rows.length > 0 ∧ res.columns.length > 0 then
      let headerRow := List.intercalate " | ".toList res.columns
      headerRow ++ ['\n'] ++
      List.replicate headerRow.length '-' ++ ['\n'] ++
      joinNL ((res.rows.take 100).map fun row =>
        List.intercalate " | ".toList (row.map renderCell)) ++ ['\n'] ++
      (if res.rows.length > 100 then
        "... and ".toList ++ (toString (res.rows.length - 100)).toList ++
          " more rows\n".toList
      else [])
    else [])
  else
    "Rows Affected: ".toList ++ (toString res.rowsAffected).toList ++ ['\n'])

/-- PostgreSQLExecutor.Execute over the abstracted environment. The Bool of
the pair records whether ensureConnection (server contact) was reached. -/
def pgExecute (p : PgEnv) : ExecResult × Bool :=
  if ¬ p.available then
    ({ language := postgresTag
       error := "PostgreSQL connection is not configured or unavailable".toList
       exitCode := 151 }, false)
  else
    if trimSpace (prepareSQLCode p.code) = [] then
      ({ language := postgresTag
         error := "No SQL query provided".toList
         exitCode := 153 }, false)
    else
      match p.connErr with
      | some m =>
        ({ language := postgresTag
           error := "Failed to connect to PostgreSQL: ".toList ++ m
           exitCode := 152 }, true)
      | none =>
        match p.query with
        | .err m =>
          if p.deadlineExceeded then
            ({ language := postgresTag
               error := "Query execution timed out".toList
               exitCode := 124 }, true)
          else
            ({ language := postgresTag
               error := "SQL execution error: ".toList ++ m
               exitCode := 153 }, true)
        | .ok res =>
          ({ language := postgresTag
             output := formatQueryOutput p.execTimeStr res
             exitCode := 0
             sqlResult := some res }, true)

/-!
Execution manager (executor.go): registration, routing, request-scoped
deadlines and executor refresh.
-/

/-- The language tags NewExecutionManager registers executors under. -/
def registeredLangs : List Str := [typescriptTag, goTag, postgresTag]

/-- The context deadline the manager constructs: request.timeout when
positive, otherwise a background context with no deadline at all. -/
def managerCtx (timeoutNs : Int) : Option Int :=
  if timeoutNs > 0 then some timeoutNs else none

/-- The deadline an executor runs under, given the context handed to it:
executors substitute their own default only when the context is nil
(the outer option); otherwise the context's deadline (the inner option)
is used as is. -/
def executorCtx (passed : Option (Option Int)) (defaultNs : Int) : Option Int :=
  match passed with
  | none => some defaultNs
  | some d => d

/-- The deadline in force for a managed request: the manager always hands the
executor a non-nil context carrying managerCtx. -/
def effectiveDeadline (timeoutNs defaultNs : Int) : Option Int :=
  executorCtx (some (managerCtx timeoutNs)) defaultNs

/-- ExecutionManager.Execute routing: resolve the executor by exact tag, then
check availability; either failure yields the not-available error. A result
of ok names the executor the request is dispatched to. -/
def managerRoute (lang : Str) (avail : Str → Bool) : Except Str Str :=
  if registeredLangs.contains lang then
    if avail lang then .ok lang
    else .error ("executor for ".toList ++ lang ++ " is not available".toList)
  else .error ("executor for ".toList ++ lang ++ " is not available".toList)

/-- The state of one executor slot held by the manager: which instantiation
occupies it and whether Cleanup has been called on that instance. -/
structure ExecutorSlot where
  gen : Nat
  cleaned : Bool
  deriving DecidableEq, Repr

/-- The executor map of the manager, with one slot per registered language. -/
structure ManagerState where
  tsSlot : ExecutorSlot
  goSlot : ExecutorSlot
  pgSlot : ExecutorSlot
  deriving DecidableEq, Repr

/-- The manager as built by NewExecutionManager. -/
def initManager : ManagerState :=
  { tsSlot := { gen := 0, cleaned := false }
    goSlot := { gen := 0, cleaned := false }
    pgSlot := { gen := 0, cleaned := false } }

/-- The cleanup step of RefreshExecutor: Cleanup is invoked on the executor
registered under the tag, when there is one. -/
def markCleaned (st : ManagerState) (lang : Str) : ManagerState :=
  if lang = typescriptTag then { st with tsSlot := { st.tsSlot with cleaned := true } }
  else if lang = goTag then { st with goSlot := { st.goSlot with cleaned := true } }
  else if lang = postgresTag then { st with pgSlot := { st.pgSlot with cleaned := true } }
  else st

/-- RefreshExecutor of executor.go: clean up the old executor, then recreate
it for typescript and go; every other tag is refused with an error and no new
executor is installed. Returns the updated state and the error, if any. -/
def refreshExecutor (st : ManagerState) (lang : Str) : ManagerState × Option Str :=
  let st1 := markCleaned st lang
  if lang = typescriptTag then
    ({ st1 with tsSlot := { gen := st1.tsSlot.gen + 1, cleaned := false } }, none)
  else if lang = goTag then
    ({ st1 with goSlot := { gen := st1.goSlot.gen + 1, cleaned := false } }, none)
  else
    (st1, some ("cannot refresh unsupported language: ".toList ++ lang))

/-- Environment of a Postgres request whose input is only comments and blank
lines. -/
def pgEnvOnlyComments : PgEnv :=
  { available := true
    code := "-- just a comment\n   \n-- another".toList
    connErr := none
    query := PgQueryOutcome.err []
    deadlineExceeded := false
    execTimeStr := [] }

/-- Sandbox evaluation that fails with a pattern-matching syntax error. -/
def gojaSyntaxFailEval : JsEval :=
  { timedOut := false
    execErr := some "SyntaxError: Unexpected token ILLEGAL".toList
    value := none
    outputs := []
    errors := [] }

/-- Environment of a TypeScript request with no node runtime and a sandbox
failure matching the fallback list. -/
def tsEnvSandboxFail : TsEnv :=
  { transpileErrors := []
    nodeAvailable := false
    node := { tempFileErr := none, combinedOutput := [], runFailed := false,
              deadlineExceeded := false }
    goja := gojaSyntaxFailEval }

/-- Environment of a TypeScript request where node is available but the
scratch file cannot be created. -/
def tsEnvTempFileFail : TsEnv :=
  { transpileErrors := []
    nodeAvailable := true
    node := { tempFileErr := some "no space left on device".toList,
              combinedOutput := [], runFailed := false, deadlineExceeded := false }
    goja := { timedOut := false, execErr := none, value := none,
              outputs := [], errors := [] } }

/-- Environment of a Go request whose child process exits with status 3. -/
def goEnvChildExit3 : GoEnv :=
  { goInstalled := true
    tempDirErr := none
    writeErr := none
    code := "package main".toList
    run := { stdout := [], stderr := "exit status 3".toList,
             err := some (GoRunErr.exitErr 3), deadlineExceeded := false } }

/-- A sandbox evaluation that completed without a runtime error while
console.error wrote a non-empty line: the result keeps exit code 0 but
carries the console.error text in its error field. -/
def gojaConsoleErrSuccess (t : TsEnv) : Prop :=
  t.transpileErrors = [] ∧ t.nodeAvailable = false ∧
    t.goja.timedOut = false ∧ t.goja.execErr = none ∧ joinNL t.goja.errors ≠ []

/-- Sandbox evaluation of a script that calls console.error once and finishes
without a runtime error. -/
def consoleErrJsEval : JsEval :=
  { timedOut := false, execErr := none, value := none, outputs := []
    errors := ["boom".toList] }

/-- A node run outcome that never happened (node unavailable). -/
def idleNodeRun : NodeRun :=
  { tempFileErr := none, combinedOutput := [], runFailed := false
    deadlineExceeded := false }

/-- TypeScript environment: no node runtime, sandbox run calls console.error
and succeeds. -/
def consoleErrTsEnv : TsEnv :=
  { transpileErrors := [], nodeAvailable := false, node := idleNodeRun
    goja := consoleErrJsEval }

/-- A Go run that succeeds printing to stdout. -/
def goEnvOk : GoEnv :=
  { goInstalled := true, tempDirErr := none, writeErr := none
    code := "package main".toList
    run := { stdout := "hi".toList, stderr := [], err := none
             deadlineExceeded := false } }

/-- A Postgres request on an unconfigured executor. -/
def pgEnvNotConfigured : PgEnv :=
  { available := false, code := "SELECT 1".toList, connErr := none
    query := PgQueryOutcome.err [], deadlineExceeded := false
    execTimeStr := [] }

/-- A node run that fails (non-zero child status, no deadline) while having
produced no combined output: executeWithNode then reports exit code 1 with an
empty error, the second exception to the exit-zero-iff-empty-error rule. -/
def nodeSilentFailure (t : TsEnv) : Prop :=
  t.transpileErrors = [] ∧ t.nodeAvailable = true ∧
    t.node.tempFileErr = none ∧ t.node.runFailed = true ∧
    t.node.deadlineExceeded = false ∧ t.node.combinedOutput = []

/-- TypeScript environment: node available, child fails without output. -/
def nodeSilentFailEnv : TsEnv :=
  { transpileErrors := []
    nodeAvailable := true
    node := { tempFileErr := none, combinedOutput := [], runFailed := true
              deadlineExceeded := false }
    goja := consoleErrJsEval }

/-!
Auxiliary facts about the string model, used to settle the claims about the
SQL cleaner and the Go program synthesis.
-/

theorem bool_eq_false {b : Bool} (h : ¬ b = true) : b = false := by
  cases b
  · rfl
  · exact absurd rfl h

theorem startsWith_iff (pat : Str) : ∀ s : Str, startsWith pat s = true ↔ ∃ r, s = pat ++ r := by
  induction pat with
  | nil => intro s; simp [startsWith]
  | cons p ps ih =>
    intro s
    cases s with
    | nil =>
      simp only [startsWith, List.cons_append]
      constructor
      · intro h; cases h
      · rintro ⟨r, h⟩; cases h
    | cons c cs =>
      simp only [startsWith, Bool.and_eq_true, decide_eq_true_eq, ih, List.cons_append]
      constructor
      · rintro ⟨rfl, r, rfl⟩; exact ⟨r, rfl⟩
      · rintro ⟨r, h⟩
        injection h with h1 h2
        exact ⟨h1.symm, r, h2⟩

theorem startsWith_nil_false {pat : Str} (h : pat ≠ []) : startsWith pat [] = false := by
  cases pat with
  | nil => exact absurd rfl h
  | cons p ps => rfl

theorem findSubstr_some_startsWith {pat : Str} :
    ∀ {s : Str} {i : Nat}, findSubstr pat s = some i → startsWith pat (s.drop i) = true := by
  intro s
  induction s with
  | nil =>
    intro i h
    unfold findSubstr at h
    by_cases hs : startsWith pat [] = true
    · rw [if_pos hs] at h; cases h; simpa using hs
    · rw [if_neg hs] at h; cases h
  | cons c cs ih =>
    intro i h
    unfold findSubstr at h
    by_cases hs : startsWith pat (c :: cs) = true
    · rw [if_pos hs] at h; cases h; simpa using hs
    · rw [if_neg hs] at h
      cases hfind : findSubstr pat cs with
      | none => rw [hfind] at h; cases h
      | some j =>
        rw [hfind] at h
        simp only [Option.map_some', Option.some.injEq] at h
        subst h
        exact ih hfind

theorem findSubstr_none {pat : Str} :
    ∀ {s : Str}, findSubstr pat s = none → ∀ i, startsWith pat (s.drop i) = false := by
  intro s
  induction s with
  | nil =>
    intro h i
    unfold findSubstr at h
    by_cases hs : startsWith pat [] = true
    · rw [if_pos hs] at h; cases h
    · rw [List.drop_nil]; exact bool_eq_false hs
  | cons c cs ih =>
    intro h i
    unfold findSubstr at h
    by_cases hs : startsWith pat (c :: cs) = true
    · rw [if_pos hs] at h; cases h
    · rw [if_neg hs] at h
      cases hfind : findSubstr pat cs with
      | some j => rw [hfind] at h; cases h
      | none =>
        cases i with
        | zero => exact bool_eq_false hs
        | succ j => exact ih hfind j

theorem findSubstr_min {pat : Str} :
    ∀ {s : Str} {i : Nat}, findSubstr pat s = some i →
      ∀ j, j < i → startsWith pat (s.drop j) = false := by
  intro s
  induction s with
  | nil =>
    intro i h j hj
    unfold findSubstr at h
    by_cases hs : startsWith pat [] = true
    · rw [if_pos hs] at h; cases h; omega
    · rw [if_neg hs] at h; cases h
  | cons c cs ih =>
    intro i h j hj
    unfold findSubstr at h
    by_cases hs : startsWith pat (c :: cs) = true
    · rw [if_pos hs] at h; cases h; omega
    · rw [if_neg hs] at h
      cases hfind : findSubstr pat cs with
      | none => rw [hfind] at h; cases h
      | some k =>
        rw [hfind] at h
        simp only [Option.map_some', Option.some.injEq] at h
        subst h
        cases j with
        | zero => exact bool_eq_false hs
        | succ j => exact ih hfind j (by omega)

theorem Occurs_iff (pat s : Str) : Occurs pat s ↔ ∃ i, startsWith pat (s.drop i) = true := by
  constructor
  · rintro ⟨l, r, rfl⟩
    refine ⟨l.length, ?_⟩
    rw [List.append_assoc, List.drop_left, startsWith_iff]
    exact ⟨r, rfl⟩
  · rintro ⟨i, h⟩
    rw [startsWith_iff] at h
    obtain ⟨r, hr⟩ := h
    exact ⟨s.take i, r, by rw [List.append_assoc, ← hr, List.take_append_drop]⟩

theorem containsB_iff {pat s : Str} : containsB pat s = true ↔ Occurs pat s := by
  unfold containsB
  rw [Option.isSome_iff_exists, Occurs_iff]
  constructor
  · rintro ⟨i, hi⟩; exact ⟨i, findSubstr_some_startsWith hi⟩
  · rintro ⟨i, hi⟩
    cases hfind : findSubstr pat s with
    | some j => exact ⟨j, rfl⟩
    | none => rw [findSubstr_none hfind i] at hi; cases hi

theorem findSubstr_eq_none_of_not_Occurs {pat s : Str} (h : ¬ Occurs pat s) :
    findSubstr pat s = none := by
  cases hfind : findSubstr pat s with
  | none => rfl
  | some i => exact absurd (containsB_iff.mp (by unfold containsB; rw [hfind]; rfl)) h

theorem Occurs_of_startsWith {pat s : Str} (h : startsWith pat s = true) : Occurs pat s := by
  rw [startsWith_iff] at h
  obtain ⟨r, rfl⟩ := h
  exact ⟨[], r, rfl⟩

theorem startsWith_of_take {pat s : Str} {k : Nat}
    (h : startsWith pat (s.take k) = true) : startsWith pat s = true := by
  rw [startsWith_iff] at h ⊢
  obtain ⟨r, hr⟩ := h
  exact ⟨r ++ s.drop k, by rw [← List.append_assoc, ← hr, List.take_append_drop]⟩

theorem Occurs_append {pat m u v : Str} (h : Occurs pat m) : Occurs pat (u ++ m ++ v) := by
  obtain ⟨l, r, rfl⟩ := h
  exact ⟨u ++ l, r ++ v, by simp [List.append_assoc]⟩

theorem not_Occurs_take_of_findSubstr {pat t : Str} {idx : Nat} (hne : pat ≠ [])
    (h : findSubstr pat t = some idx) : ¬ Occurs pat (t.take idx) := by
  intro hocc
  rw [Occurs_iff] at hocc
  obtain ⟨i, hi⟩ := hocc
  by_cases hlt : i < idx
  · rw [List.drop_take] at hi
    have h1 := startsWith_of_take hi
    rw [findSubstr_min h i hlt] at h1
    cases h1
  · have hdrop : (t.take idx).drop i = [] := by
      apply List.drop_eq_nil_of_le
      calc (t.take idx).length ≤ idx := by
            rw [List.length_take]; omega
      _ ≤ i := by omega
    rw [hdrop, startsWith_nil_false hne] at hi
    cases hi

theorem dropWhile_idem (p : Char → Bool) (l : Str) :
    (l.dropWhile p).dropWhile p = l.dropWhile p := by
  induction l with
  | nil => rfl
  | cons a as ih =>
    by_cases h : p a
    · simpa [List.dropWhile_cons, h] using ih
    · simp [List.dropWhile_cons, h]

theorem head_dropWhile_false {p : Char → Bool} :
    ∀ {l : Str} {c : Char} {cs : Str}, l.dropWhile p = c :: cs → p c = false := by
  intro l
  induction l with
  | nil => intro c cs h; cases h
  | cons a as ih =>
    intro c cs h
    by_cases hp : p a
    · rw [List.dropWhile_cons, if_pos hp] at h; exact ih h
    · rw [List.dropWhile_cons, if_neg hp] at h
      cases h
      simpa using hp

theorem trimRight_decomp (s : Str) :
    s = trimRight s ++ (s.reverse.takeWhile goIsSpace).reverse := by
  unfold trimRight
  rw [← List.reverse_append, List.takeWhile_append_dropWhile, List.reverse_reverse]

theorem trimSpace_decomp (s : Str) : ∃ u v, s = u ++ trimSpace s ++ v := by
  refine ⟨s.takeWhile goIsSpace, ((trimLeft s).reverse.takeWhile goIsSpace).reverse, ?_⟩
  have h1 : s = s.takeWhile goIsSpace ++ trimLeft s :=
    (List.takeWhile_append_dropWhile goIsSpace s).symm
  rw [List.append_assoc]
  exact h1.trans (congrArg (s.takeWhile goIsSpace ++ ·) (trimRight_decomp (trimLeft s)))

theorem trimRight_idem (s : Str) : trimRight (trimRight s) = trimRight s := by
  show (((s.reverse.dropWhile goIsSpace).reverse).reverse.dropWhile goIsSpace).reverse
    = (s.reverse.dropWhile goIsSpace).reverse
  rw [List.reverse_reverse, dropWhile_idem]

theorem trimLeft_trimRight_trimLeft (s : Str) :
    trimLeft (trimRight (trimLeft s)) = trimRight (trimLeft s) := by
  cases h : trimRight (trimLeft s) with
  | nil => rfl
  | cons c cs =>
    have hd := trimRight_decomp (trimLeft s)
    rw [h] at hd
    have hd' : s.dropWhile goIsSpace
        = c :: (cs ++ ((trimLeft s).reverse.takeWhile goIsSpace).reverse) := by
      rw [List.cons_append] at hd
      exact hd
    have hc : goIsSpace c = false := head_dropWhile_false hd'
    show (c :: cs).dropWhile goIsSpace = c :: cs
    rw [List.dropWhile_cons, hc]
    simp

theorem trimSpace_idem (s : Str) : trimSpace (trimSpace s) = trimSpace s := by
  show trimRight (trimLeft (trimRight (trimLeft s))) = trimRight (trimLeft s)
  rw [trimLeft_trimRight_trimLeft, trimRight_idem]

theorem mem_of_mem_trimLeft {c : Char} {s : Str} (h : c ∈ trimLeft s) : c ∈ s :=
  (List.dropWhile_sublist goIsSpace).subset h

theorem mem_of_mem_trimRight {c : Char} {s : Str} (h : c ∈ trimRight s) : c ∈ s := by
  unfold trimRight at h
  rw [List.mem_reverse] at h
  have h2 := (List.dropWhile_sublist goIsSpace).subset h
  rwa [List.mem_reverse] at h2

theorem mem_of_mem_trimSpace {c : Char} {s : Str} (h : c ∈ trimSpace s) : c ∈ s :=
  mem_of_mem_trimLeft (mem_of_mem_trimRight h)

theorem forall_mem_splitOnP (p : Char → Bool) (s : Str) :
    ∀ l ∈ s.splitOnP p, ∀ c ∈ l, p c = false := by
  induction s with
  | nil =>
    intro l hl c hc
    rw [List.splitOnP_nil, List.mem_singleton] at hl
    subst hl
    cases hc
  | cons a as ih =>
    intro l hl c hc
    rw [List.splitOnP_cons] at hl
    by_cases hpa : p a = true
    · rw [if_pos hpa] at hl
      rcases List.mem_cons.mp hl with h | h
      · subst h; cases hc
      · exact ih l h c hc
    · rw [if_neg hpa] at hl
      cases hsp : as.splitOnP p with
      | nil => exact absurd hsp (List.splitOnP_ne_nil p as)
      | cons hd tl =>
        rw [hsp, List.modifyHead_cons] at hl
        rcases List.mem_cons.mp hl with h | h
        · subst h
          rcases List.mem_cons.mp hc with h | h
          · subst h; exact bool_eq_false hpa
          · exact ih hd (by rw [hsp]; exact List.mem_cons_self hd tl) c h
        · exact ih l (by rw [hsp]; exact List.mem_cons_of_mem hd h) c hc

theorem not_newline_mem_splitOnNL {s l : Str} (h : l ∈ splitOnNL s) : '\n' ∉ l := by
  intro hc
  have hf := forall_mem_splitOnP (fun c => c == '\n') s l ?_ '\n' hc
  · simp at hf
  · simpa [splitOnNL, List.splitOn] using h

theorem splitOnNL_joinNL {ls : List Str} (h1 : ∀ l ∈ ls, '\n' ∉ l) (h2 : ls ≠ []) :
    splitOnNL (joinNL ls) = ls :=
  List.splitOn_intercalate ls '\n' h1 h2

theorem joinNL_splitOnNL (s : Str) : joinNL (splitOnNL s) = s :=
  List.intercalate_splitOn s '\n'

theorem joinNL_eq_nil_iff (ls : List Str) : joinNL ls = [] ↔ ls = [] ∨ ls = [[]] := by
  match ls with
  | [] => simp [joinNL, List.intercalate]
  | [a] => simp [joinNL, List.intercalate]
  | a :: b :: t =>
    simp only [joinNL, List.intercalate, List.intersperse_cons_cons, List.flatten]
    constructor
    · intro h
      rcases List.append_eq_nil.mp h with ⟨-, h2⟩
      rcases List.append_eq_nil.mp h2 with ⟨h3, -⟩
      cases h3
    · intro h
      rcases h with h | h <;> cases h

/-!
Facts about cleanSQLLine and prepareSQLCode: every surviving line is nonempty,
already trimmed and free of the two-dash marker, and clean lines pass through
unchanged; idempotence of the cleaner follows.
-/

theorem dashdash_ne_nil : dashdash ≠ [] := by decide

theorem cleanSQLLine_some_props {l m : Str} (h : cleanSQLLine l = some m) :
    m ≠ [] ∧ trimSpace m = m ∧ ¬ Occurs dashdash m := by
  unfold cleanSQLLine at h
  by_cases h1 : trimSpace l = []
  · rw [if_pos h1] at h; cases h
  · rw [if_neg h1] at h
    by_cases h2 : startsWith dashdash (trimSpace l) = true
    · rw [if_pos h2] at h; cases h
    · rw [if_neg h2] at h
      cases hfind : findSubstr dashdash (trimSpace l) with
      | some idx =>
        rw [hfind] at h
        dsimp only at h
        by_cases h3 : trimSpace ((trimSpace l).take idx) = []
        · rw [if_pos h3] at h; cases h
        · rw [if_neg h3] at h
          cases h
          refine ⟨h3, trimSpace_idem _, ?_⟩
          intro hocc
          obtain ⟨u, v, hdec⟩ := trimSpace_decomp ((trimSpace l).take idx)
          exact not_Occurs_take_of_findSubstr dashdash_ne_nil hfind
            (hdec ▸ Occurs_append hocc)
      | none =>
        rw [hfind] at h
        dsimp only at h
        cases h
        refine ⟨h1, trimSpace_idem _, ?_⟩
        intro hocc
        rw [Occurs_iff] at hocc
        obtain ⟨i, hi⟩ := hocc
        rw [findSubstr_none hfind i] at hi
        cases hi

theorem cleanSQLLine_mem_subset {l m : Str} (h : cleanSQLLine l = some m) :
    ∀ c ∈ m, c ∈ l := by
  unfold cleanSQLLine at h
  by_cases h1 : trimSpace l = []
  · rw [if_pos h1] at h; cases h
  · rw [if_neg h1] at h
    by_cases h2 : startsWith dashdash (trimSpace l) = true
    · rw [if_pos h2] at h; cases h
    · rw [if_neg h2] at h
      cases hfind : findSubstr dashdash (trimSpace l) with
      | some idx =>
        rw [hfind] at h
        dsimp only at h
        by_cases h3 : trimSpace ((trimSpace l).take idx) = []
        · rw [if_pos h3] at h; cases h
        · rw [if_neg h3] at h
          cases h
          intro c hc
          exact mem_of_mem_trimSpace
            (List.take_subset idx (trimSpace l) (mem_of_mem_trimSpace hc))
      | none =>
        rw [hfind] at h
        dsimp only at h
        cases h
        intro c hc
        exact mem_of_mem_trimSpace hc

theorem cleanSQLLine_of_clean {m : Str} (h1 : m ≠ []) (h2 : trimSpace m = m)
    (h3 : ¬ Occurs dashdash m) : cleanSQLLine m = some m := by
  unfold cleanSQLLine
  rw [h2, if_neg h1]
  have hsw : ¬ startsWith dashdash m = true := fun hs => h3 (Occurs_of_startsWith hs)
  rw [if_neg hsw, findSubstr_eq_none_of_not_Occurs h3]

theorem filterMap_id_of_some {f : Str → Option Str} :
    ∀ {ls : List Str}, (∀ l ∈ ls, f l = some l) → ls.filterMap f = ls := by
  intro ls
  induction ls with
  | nil => intro _; rfl
  | cons a as ih =>
    intro h
    rw [List.filterMap_cons, h a (List.mem_cons_self a as)]
    rw [ih fun l hl => h l (List.mem_cons_of_mem a hl)]

theorem prepareSQLLines_props (s : Str) :
    ∀ l ∈ prepareSQLLines s,
      l ≠ [] ∧ trimSpace l = l ∧ ¬ Occurs dashdash l ∧ '\n' ∉ l := by
  intro l hl
  rw [prepareSQLLines, List.mem_filterMap] at hl
  obtain ⟨a, ha, hfa⟩ := hl
  obtain ⟨hne, htrim, hocc⟩ := cleanSQLLine_some_props hfa
  refine ⟨hne, htrim, hocc, ?_⟩
  intro hc
  exact not_newline_mem_splitOnNL ha (cleanSQLLine_mem_subset hfa '\n' hc)

theorem prepareSQLLines_prepareSQLCode (s : Str) :
    prepareSQLLines (prepareSQLCode s) = prepareSQLLines s := by
  cases hls : prepareSQLLines s with
  | nil =>
    rw [prepareSQLCode, hls]
    decide
  | cons a as =>
    have hprops := prepareSQLLines_props s
    rw [hls] at hprops
    have hsplit : splitOnNL (prepareSQLCode s) = a :: as := by
      rw [prepareSQLCode, hls]
      exact splitOnNL_joinNL (fun l hl => (hprops l hl).2.2.2) (List.cons_ne_nil a as)
    rw [prepareSQLLines, hsplit]
    exact filterMap_id_of_some fun l hl =>
      cleanSQLLine_of_clean (hprops l hl).1 (hprops l hl).2.1 (hprops l hl).2.2.1

/-- Claim C9: the SQL input cleaner is idempotent: for every input string s,
prepareSQLCode (prepareSQLCode s) = prepareSQLCode s. -/
theorem prepareSQLCode_idem (s : Str) :
    prepareSQLCode (prepareSQLCode s) = prepareSQLCode s := by
  show joinNL (prepareSQLLines (prepareSQLCode s)) = prepareSQLCode s
  rw [prepareSQLLines_prepareSQLCode]
  rfl

/-- Claim C10: every line of the string returned by prepareSQLCode is
non-empty, carries no leading or trailing whitespace, and contains no
occurrence of the two-dash marker; consequently the cleaner truncates at a
two-dash marker even inside a quoted SQL literal, and it rewrites the line's
surrounding indentation. -/
theorem prepareSQLCode_lines_clean :
    (∀ s l, l ∈ splitOnNL (prepareSQLCode s) → prepareSQLCode s ≠ [] →
      l ≠ [] ∧ trimSpace l = l ∧ ¬ Occurs dashdash l) ∧
    prepareSQLCode "SELECT 'a--b' FROM t".toList = "SELECT 'a".toList ∧
    prepareSQLCode "    SELECT 1".toList = "SELECT 1".toList := by
  refine ⟨?_, by decide, by decide⟩
  intro s l hl hne
  have hprops := prepareSQLLines_props s
  have hlsne : prepareSQLLines s ≠ [] := by
    intro h0
    apply hne
    show joinNL (prepareSQLLines s) = []
    rw [h0]
    rfl
  have hsplit : splitOnNL (prepareSQLCode s) = prepareSQLLines s := by
    show splitOnNL (joinNL (prepareSQLLines s)) = _
    exact splitOnNL_joinNL (fun l2 hl2 => (hprops l2 hl2).2.2.2) hlsne
  rw [hsplit] at hl
  exact ⟨(hprops l hl).1, (hprops l hl).2.1, (hprops l hl).2.2.1⟩

/-- Witness for C10 at a concrete cleaned line. -/
theorem prepareSQLCode_lines_clean_witness :
    "SELECT 1".toList ≠ [] ∧ trimSpace "SELECT 1".toList = "SELECT 1".toList ∧
      ¬ Occurs dashdash "SELECT 1".toList :=
  prepareSQLCode_lines_clean.1 "SELECT 1".toList "SELECT 1".toList
    (by decide) (by decide)

theorem indentCode_lines (code : Str) :
    splitOnNL (indentCode code) =
      (splitOnNL code).map fun line =>
        if trimSpace line ≠ [] then '\t' :: line else line := by
  apply splitOnNL_joinNL
  · intro l hl
    rw [List.mem_map] at hl
    obtain ⟨a, ha, rfl⟩ := hl
    have hna := not_newline_mem_splitOnNL ha
    by_cases h : trimSpace a ≠ []
    · rw [if_pos h]
      intro hc
      rcases List.mem_cons.mp hc with h1 | h1
      · exact absurd h1 (by decide)
      · exact hna h1
    · rw [if_neg h]
      exact hna
  · intro h0
    rw [List.map_eq_nil_iff] at h0
    exact List.splitOnP_ne_nil _ code (by simpa [splitOnNL, List.splitOn] using h0)

/-- Claim C6: Go program synthesis has exactly three cases: source containing
the package marker is used verbatim; else source containing the func main(
marker gets only the package main prefix; else the snippet becomes the body
of a generated main function importing fmt, with each non-blank line indented
by one tab and blank lines left unindented. -/
theorem prepareGoCode_cases (code : Str) :
    (containsB packageMarker code = true → prepareGoCode code = code) ∧
    (containsB packageMarker code = false → containsB funcMainMarker code = true →
      prepareGoCode code = "package main\n\n".toList ++ code) ∧
    (containsB packageMarker code = false → containsB funcMainMarker code = false →
      prepareGoCode code = goWrapHeader ++ indentCode code ++ goWrapFooter ∧
      splitOnNL (indentCode code) =
        (splitOnNL code).map fun line =>
          if trimSpace line ≠ [] then '\t' :: line else line) := by
  refine ⟨?_, ?_, ?_⟩
  · intro h1
    rw [prepareGoCode, if_pos h1]
  · intro h1 h2
    rw [prepareGoCode, if_neg (by rw [h1]; exact Bool.false_ne_true), if_pos h2]
  · intro h1 h2
    refine ⟨?_, indentCode_lines code⟩
    rw [prepareGoCode, if_neg (by rw [h1]; exact Bool.false_ne_true),
      if_neg (by rw [h2]; exact Bool.false_ne_true)]

/-- Witness for C6 at a bare snippet that is wrapped into a main function. -/
theorem prepareGoCode_cases_witness :
    prepareGoCode "fmt.Println(1)".toList =
      goWrapHeader ++ indentCode "fmt.Println(1)".toList ++ goWrapFooter :=
  ((prepareGoCode_cases ("fmt.Println(1)".toList)).2.2 (by decide) (by decide)).1

/-- Counterexample for C3: as claimed, a request with timeout zero should run
under the executor's non-zero default deadline, and a positive timeout should
be capped at the executor default; the modelled manager-to-executor deadline
composition does neither: timeout zero yields no deadline at all and a
timeout above the default is used as is. -/
theorem effectiveDeadline_counterexample :
    effectiveDeadline 0 5000000000 = none ∧
    effectiveDeadline 0 5000000000 ≠ some 5000000000 ∧
    effectiveDeadline 20000000000 10000000000 = some 20000000000 ∧
    effectiveDeadline 20000000000 10000000000 ≠
      some (min 20000000000 10000000000) := by
  refine ⟨rfl, by decide, rfl, by decide⟩

/-- Claim C3, amended: the manager runs a request under a deadline equal to
request.timeout whenever it is positive, even when that exceeds the executor
default, and under no deadline at all when the timeout is zero; an executor
substitutes its own default only when handed a nil context, which the manager
never passes. -/
theorem effectiveDeadline_amended (t d : Int) :
    (t > 0 → effectiveDeadline t d = some t) ∧
    (t ≤ 0 → effectiveDeadline t d = none) ∧
    executorCtx none d = some d := by
  refine ⟨?_, ?_, rfl⟩
  · intro h
    show executorCtx (some (managerCtx t)) d = some t
    rw [managerCtx, if_pos h]
    rfl
  · intro h
    show executorCtx (some (managerCtx t)) d = none
    rw [managerCtx, if_neg (by omega)]
    rfl

/-- Witness for the amended C3 at concrete timeouts. -/
theorem effectiveDeadline_amended_witness :
    effectiveDeadline 7 5000000000 = some 7 ∧
      effectiveDeadline 0 5000000000 = none :=
  ⟨(effectiveDeadline_amended 7 5000000000).1 (by decide),
   (effectiveDeadline_amended 0 5000000000).2.1 (by decide)⟩

/-- Counterexample for C4: a request whose language tag is javascript is not
routed to the TypeScript executor; the manager has no executor registered
under that tag and fails with the executor-unavailable error even though
every executor reports itself available. -/
theorem javascript_alias_counterexample :
    managerRoute javascriptTag (fun _ => true) =
      Except.error "executor for javascript is not available".toList := by
  rfl

/-- Claim C4, amended: the tag javascript is declared as a Language constant
but the manager registers no executor under it, so an Execute request with
that tag fails with the executor-unavailable error regardless of executor
availability, while the typescript tag is routed to its executor. -/
theorem javascript_alias_amended (avail : Str → Bool) :
    managerRoute javascriptTag avail =
      Except.error ("executor for ".toList ++ javascriptTag ++
        " is not available".toList) ∧
    javascriptTag ∉ registeredLangs ∧
    (avail typescriptTag = true →
      managerRoute typescriptTag avail = Except.ok typescriptTag) := by
  refine ⟨?_, by decide, ?_⟩
  · rw [managerRoute, if_neg (by decide)]
  · intro h
    rw [managerRoute, if_pos (by decide), if_pos h]

/-- Witness for the amended C4 with every executor available. -/
theorem javascript_alias_amended_witness :
    managerRoute javascriptTag (fun _ => true) =
      Except.error ("executor for ".toList ++ javascriptTag ++
        " is not available".toList) ∧
    managerRoute typescriptTag (fun _ => true) = Except.ok typescriptTag :=
  ⟨(javascript_alias_amended (fun _ => true)).1,
   (javascript_alias_amended (fun _ => true)).2.2 rfl⟩

/-- Counterexample for C8: refreshing the postgres executor does not succeed
and does not install a fresh executor: the call returns the
unsupported-language error, and the manager still holds the original executor
instance (same generation), now with Cleanup invoked on it. -/
theorem refresh_postgres_counterexample :
    (refreshExecutor initManager postgresTag).2 =
      some "cannot refresh unsupported language: postgres".toList ∧
    (refreshExecutor initManager postgresTag).1.pgSlot.gen = 0 ∧
    (refreshExecutor initManager postgresTag).1.pgSlot.cleaned = true := by
  refine ⟨rfl, rfl, rfl⟩

/-- Claim C8, amended: RefreshExecutor destroys and recreates the executor
for the typescript and go tags, returning success with a fresh instance; for
the postgres tag it calls Cleanup on the existing executor but then returns
the unsupported-language error and installs no new executor. -/
theorem refresh_amended (st : ManagerState) :
    refreshExecutor st typescriptTag =
      ({ st with tsSlot := { gen := st.tsSlot.gen + 1, cleaned := false } }, none) ∧
    refreshExecutor st goTag =
      ({ st with goSlot := { gen := st.goSlot.gen + 1, cleaned := false } }, none) ∧
    refreshExecutor st postgresTag =
      ({ st with pgSlot := { gen := st.pgSlot.gen, cleaned := true } },
        some ("cannot refresh unsupported language: ".toList ++ postgresTag)) := by
  refine ⟨rfl, rfl, rfl⟩

/-- Claim C7: a Postgres request on a configured executor whose input cleans
to the empty string is rejected with exit code 153, the no-query error, a nil
sqlResult, and without any server contact (the cleaning check precedes
ensureConnection). -/
theorem pg_empty_query_preflight (p : PgEnv)
    (hav : p.available = true)
    (hclean : trimSpace (prepareSQLCode p.code) = []) :
    pgExecute p =
      ({ output := [], error := "No SQL query provided".toList, exitCode := 153,
         language := postgresTag, sqlResult := none }, false) := by
  rw [pgExecute, if_neg (by rw [hav]; exact fun hc => hc rfl), if_pos hclean]

/-- Witness for C7 at a comments-only input. -/
theorem pg_empty_query_preflight_witness :
    pgExecute pgEnvOnlyComments =
      ({ output := [], error := "No SQL query provided".toList, exitCode := 153,
         language := postgresTag, sqlResult := none }, false) :=
  pg_empty_query_preflight pgEnvOnlyComments rfl (by decide)

/-- Claim C5: after a successful transpile, when no external runtime is
available and the sandbox fails with an error matching the fallback pattern
list (case-insensitively), Execute returns exactly exit code 160 with the
dedicated message; and when the external runtime is available the external
path is taken and the sandbox fallback never fires. -/
theorem sandbox_fallback_code160 (t : TsEnv) :
    (t.transpileErrors = [] → t.nodeAvailable = false →
      (executeWithGoja t.goja).exitCode ≠ 0 →
      isGojaUnsupported (executeWithGoja t.goja).error = true →
      (tsExecute t).exitCode = 160 ∧
        (tsExecute t).error = "Goja failed to execute the code.".toList) ∧
    (t.transpileErrors = [] → t.nodeAvailable = true →
      tsExecute t = executeWithNode true t.node) := by
  constructor
  · intro h1 h2 h3 h4
    rw [tsExecute, if_neg (by rw [h1]; exact fun hc => hc rfl),
      if_neg (by rw [h2]; exact Bool.false_ne_true), if_pos ⟨h3, h4⟩]
    exact ⟨rfl, rfl⟩
  · intro h1 h2
    rw [tsExecute, if_neg (by rw [h1]; exact fun hc => hc rfl), if_pos h2, h2]

/-- Witness for C5 at a concrete unsupported-syntax sandbox failure. -/
theorem sandbox_fallback_code160_witness :
    (tsExecute tsEnvSandboxFail).exitCode = 160 ∧
      (tsExecute tsEnvSandboxFail).error =
        "Goja failed to execute the code.".toList :=
  (sandbox_fallback_code160 tsEnvSandboxFail).1 rfl rfl (by decide) (by decide)

/-!
Branch characterizations of the executor models, used for the exit-code range
and the success-iff-empty-error analyses.
-/

theorem executeWithGoja_timeout {ev : JsEval} (h : ev.timedOut = true) :
    executeWithGoja ev =
      { language := typescriptTag, error := "Execution timed out".toList,
        exitCode := 124 } := by
  unfold executeWithGoja
  rw [if_pos h]

theorem executeWithGoja_err {ev : JsEval} {m : Str} (h : ev.timedOut = false)
    (he : ev.execErr = some m) :
    executeWithGoja ev =
      { language := typescriptTag
        output := joinNL ev.outputs
        error :=
          if ev.errors ≠ [] then
            if m ≠ [] then m ++ '\n' :: joinNL ev.errors else joinNL ev.errors
          else m
        exitCode := 1 } := by
  unfold executeWithGoja
  rw [if_neg (by rw [h]; exact Bool.false_ne_true), he]

theorem executeWithGoja_ok {ev : JsEval} (h : ev.timedOut = false)
    (he : ev.execErr = none) :
    executeWithGoja ev =
      { language := typescriptTag
        output := joinNL
          (match ev.value with
          | some s =>
            if s ≠ "undefined".toList ∧ s ≠ "null".toList then ev.outputs ++ [s]
            else ev.outputs
          | none => ev.outputs)
        error := if ev.errors ≠ [] then joinNL ev.errors else []
        exitCode := 0 } := by
  unfold executeWithGoja
  rw [if_neg (by rw [h]; exact Bool.false_ne_true), he]
  rfl

theorem executeWithGoja_exitCode (ev : JsEval) :
    (executeWithGoja ev).exitCode = 124 ∨ (executeWithGoja ev).exitCode = 1 ∨
      (executeWithGoja ev).exitCode = 0 := by
  by_cases ht : ev.timedOut = true
  · rw [executeWithGoja_timeout ht]; exact Or.inl rfl
  · cases he : ev.execErr with
    | some m => rw [executeWithGoja_err (bool_eq_false ht) he]; exact Or.inr (Or.inl rfl)
    | none => rw [executeWithGoja_ok (bool_eq_false ht) he]; exact Or.inr (Or.inr rfl)

theorem mem_allowed_0 : (0 : Int) ∈ allowedExitCodes := by decide

theorem mem_allowed_1 : (1 : Int) ∈ allowedExitCodes := by decide

theorem mem_allowed_2 : (2 : Int) ∈ allowedExitCodes := by decide

theorem mem_allowed_124 : (124 : Int) ∈ allowedExitCodes := by decide

theorem mem_allowed_150 : (150 : Int) ∈ allowedExitCodes := by decide

theorem mem_allowed_151 : (151 : Int) ∈ allowedExitCodes := by decide

theorem mem_allowed_152 : (152 : Int) ∈ allowedExitCodes := by decide

theorem mem_allowed_153 : (153 : Int) ∈ allowedExitCodes := by decide

theorem mem_allowed_160 : (160 : Int) ∈ allowedExitCodes := by decide

theorem executeWithNode_exitCode (b : Bool) (nr : NodeRun) :
    (executeWithNode b nr).exitCode ∈ allowedExitCodes ∨
      (executeWithNode b nr).exitCode = 158 := by
  unfold executeWithNode
  by_cases hb : b = true
  · rw [if_neg (by rw [hb]; exact fun hc => hc rfl)]
    cases htf : nr.tempFileErr with
    | some m => exact Or.inr rfl
    | none =>
      dsimp only
      by_cases hrf : nr.runFailed = true
      · rw [if_pos hrf]
        by_cases hde : nr.deadlineExceeded = true
        · rw [if_pos hde]; exact Or.inl mem_allowed_124
        · rw [if_neg hde]; exact Or.inl mem_allowed_1
      · rw [if_neg hrf]; exact Or.inl mem_allowed_0
  · rw [if_pos (by rw [bool_eq_false hb]; exact Bool.false_ne_true)]
    exact Or.inl mem_allowed_160

theorem tsExecute_exitCode (t : TsEnv) :
    (tsExecute t).exitCode ∈ allowedExitCodes ∨ (tsExecute t).exitCode = 158 := by
  unfold tsExecute
  by_cases h1 : t.transpileErrors ≠ []
  · rw [if_pos h1]; exact Or.inl mem_allowed_2
  · rw [if_neg h1]
    by_cases h2 : t.nodeAvailable = true
    · rw [if_pos h2]
      exact executeWithNode_exitCode t.nodeAvailable t.node
    · rw [if_neg h2]
      by_cases h3 : (executeWithGoja t.goja).exitCode ≠ 0 ∧
          isGojaUnsupported (executeWithGoja t.goja).error = true
      · rw [if_pos h3]; exact Or.inl mem_allowed_160
      · rw [if_neg h3]
        left
        rcases executeWithGoja_exitCode t.goja with h | h | h <;> rw [h] <;> decide

theorem goExecute_exitCode (g : GoEnv) :
    (goExecute g).exitCode ∈ allowedExitCodes ∨
      ∃ n, g.run.err = some (GoRunErr.exitErr n) ∧ (goExecute g).exitCode = n := by
  unfold goExecute
  by_cases hi : g.goInstalled = true
  · rw [if_neg (by rw [hi]; exact fun hc => hc rfl)]
    cases htd : g.tempDirErr with
    | some m => exact Or.inl mem_allowed_1
    | none =>
      dsimp only
      cases hw : g.writeErr with
      | some m => exact Or.inl mem_allowed_1
      | none =>
        dsimp only
        cases herr : g.run.err with
        | none => exact Or.inl mem_allowed_0
        | some e =>
          dsimp only
          by_cases hde : g.run.deadlineExceeded = true
          · rw [if_pos hde]; exact Or.inl mem_allowed_124
          · rw [if_neg hde]
            cases e with
            | exitErr n => exact Or.inr ⟨n, rfl, rfl⟩
            | otherErr m => exact Or.inl mem_allowed_1
  · rw [if_pos (by rw [bool_eq_false hi]; exact Bool.false_ne_true)]
    exact Or.inl mem_allowed_150

theorem pgExecute_exitCode (p : PgEnv) :
    (pgExecute p).1.exitCode ∈ allowedExitCodes := by
  unfold pgExecute
  by_cases ha : p.available = true
  · rw [if_neg (by rw [ha]; exact fun hc => hc rfl)]
    by_cases hc : trimSpace (prepareSQLCode p.code) = []
    · rw [if_pos hc]; exact mem_allowed_153
    · rw [if_neg hc]
      cases hce : p.connErr with
      | some m => exact mem_allowed_152
      | none =>
        dsimp only
        cases hq : p.query with
        | err m =>
          dsimp only
          by_cases hde : p.deadlineExceeded = true
          · rw [if_pos hde]; exact mem_allowed_124
          · rw [if_neg hde]; exact mem_allowed_153
        | ok res => exact mem_allowed_0
  · rw [if_pos (by rw [bool_eq_false ha]; exact Bool.false_ne_true)]
    exact mem_allowed_151

/-- Counterexample for C2: the executors can return exit codes outside the
enumerated set: the node path yields 158 when the scratch file cannot be
created, and the Go executor propagates the child process's own exit status
(here 3) verbatim. -/
theorem exit_code_set_counterexample :
    (tsExecute tsEnvTempFileFail).exitCode = 158 ∧
    (158 : Int) ∉ allowedExitCodes ∧
    (goExecute goEnvChildExit3).exitCode = 3 ∧
    (3 : Int) ∉ allowedExitCodes := by decide

/-- Claim C2, amended: every exit code of the TypeScript executor lies in the
enumerated set or is 158 (node scratch-file failure); every exit code of the
Go executor lies in the set or is the child process's own exit status; every
exit code of the Postgres executor lies in the set. -/
theorem exit_code_range (t : TsEnv) (g : GoEnv) (p : PgEnv) :
    ((tsExecute t).exitCode ∈ allowedExitCodes ∨ (tsExecute t).exitCode = 158) ∧
    ((goExecute g).exitCode ∈ allowedExitCodes ∨
      ∃ n, g.run.err = some (GoRunErr.exitErr n) ∧ (goExecute g).exitCode = n) ∧
    (pgExecute p).1.exitCode ∈ allowedExitCodes :=
  ⟨tsExecute_exitCode t, goExecute_exitCode g, pgExecute_exitCode p⟩

theorem ne_zero_1 : ¬(1 : Int) = 0 := by decide

theorem ne_zero_2 : ¬(2 : Int) = 0 := by decide

theorem ne_zero_124 : ¬(124 : Int) = 0 := by decide

theorem ne_zero_150 : ¬(150 : Int) = 0 := by decide

theorem ne_zero_151 : ¬(151 : Int) = 0 := by decide

theorem ne_zero_152 : ¬(152 : Int) = 0 := by decide

theorem ne_zero_153 : ¬(153 : Int) = 0 := by decide

theorem ne_zero_158 : ¬(158 : Int) = 0 := by decide

theorem ne_zero_160 : ¬(160 : Int) = 0 := by decide

theorem nonempty_timeout_msg : "Execution timed out".toList ≠ ([] : Str) := by decide

theorem nonempty_query_timeout_msg :
    "Query execution timed out".toList ≠ ([] : Str) := by decide

theorem nonempty_noquery_msg : "No SQL query provided".toList ≠ ([] : Str) := by decide

theorem nonempty_pg_unavailable_msg :
    "PostgreSQL connection is not configured or unavailable".toList ≠ ([] : Str) := by
  decide

theorem nonempty_goja_failed_msg :
    "Goja failed to execute the code.".toList ≠ ([] : Str) := by decide

theorem nonempty_go_absent_msg :
    ("Go is not installed. Please install Go from https://golang.org/dl/" ++
      " or install this package using your system's package manager").toList ≠
      ([] : Str) := by decide

theorem append_ne_nil_of_left {u v : Str} (h : u ≠ []) : u ++ v ≠ [] := by
  intro h0
  rcases List.append_eq_nil.mp h0 with ⟨h1, -⟩
  exact h h1

theorem cleanGoLine_ne_nil {l : Str} (h : l ≠ []) : cleanGoLine l ≠ [] := by
  unfold cleanGoLine
  by_cases hc : containsB goTmpMarker l = true
  · rw [if_pos hc]
    dsimp only
    cases hf : (l.splitOn '/').findIdx? (fun part => startsWith goTmpPart part) with
    | none => dsimp only; exact h
    | some i =>
      dsimp only
      unfold replaceFirst
      cases hfs : findSubstr
          (List.intercalate ['/'] ((l.splitOn '/').take (i + 2))) l with
      | none => dsimp only; exact h
      | some j =>
        dsimp only
        intro h0
        rcases List.append_eq_nil.mp h0 with ⟨h1, -⟩
        rcases List.append_eq_nil.mp h1 with ⟨-, h2⟩
        rcases List.append_eq_nil.mp h2 with ⟨h3, -⟩
        cases h3
  · rw [if_neg hc]
    exact h

theorem cleanGoError_ne_nil {s : Str} (h : s ≠ []) : cleanGoError s ≠ [] := by
  unfold cleanGoError
  intro h0
  rcases (joinNL_eq_nil_iff _).mp h0 with hmap | hmap
  · rw [List.map_eq_nil_iff] at hmap
    exact List.splitOnP_ne_nil _ s (by simpa [splitOnNL, List.splitOn] using hmap)
  · cases hsp : splitOnNL s with
    | nil => rw [hsp] at hmap; cases hmap
    | cons a tl =>
      rw [hsp] at hmap
      simp only [List.map_cons] at hmap
      injection hmap with h1 h2
      have ha0 : a = [] := by
        by_contra hne
        exact cleanGoLine_ne_nil hne h1
      have htl : tl = [] := by
        cases tl with
        | nil => rfl
        | cons b u => cases h2
      subst ha0
      subst htl
      have hjoin := joinNL_splitOnNL s
      rw [hsp] at hjoin
      apply h
      rw [← hjoin]
      rfl

theorem executeWithNode_silent (nr : NodeRun) (h1 : nr.tempFileErr = none)
    (h2 : nr.runFailed = true) (h3 : nr.deadlineExceeded = false)
    (h4 : nr.combinedOutput = []) :
    (executeWithNode true nr).exitCode = 1 ∧
      (executeWithNode true nr).error = [] := by
  unfold executeWithNode
  rw [if_neg (fun hc => hc rfl), h1]
  dsimp only
  rw [if_pos h2, if_neg (by rw [h3]; exact Bool.false_ne_true)]
  exact ⟨rfl, h4⟩

theorem executeWithNode_error_iff (nr : NodeRun)
    (hn : ¬ (nr.tempFileErr = none ∧ nr.runFailed = true ∧
      nr.deadlineExceeded = false ∧ nr.combinedOutput = [])) :
    (executeWithNode true nr).exitCode = 0 ↔
      (executeWithNode true nr).error = [] := by
  unfold executeWithNode
  rw [if_neg (fun hc => hc rfl)]
  cases htf : nr.tempFileErr with
  | some m =>
    dsimp only
    constructor
    · intro h; exact absurd h ne_zero_158
    · intro h; exact absurd h (append_ne_nil_of_left (by decide))
  | none =>
    dsimp only
    by_cases hrf : nr.runFailed = true
    · rw [if_pos hrf]
      by_cases hde : nr.deadlineExceeded = true
      · rw [if_pos hde]
        constructor
        · intro h; exact absurd h ne_zero_124
        · intro h; exact absurd h nonempty_timeout_msg
      · rw [if_neg hde]
        constructor
        · intro h; exact absurd h ne_zero_1
        · intro h; exact absurd (⟨htf, hrf, bool_eq_false hde, h⟩ :
            nr.tempFileErr = none ∧ nr.runFailed = true ∧
              nr.deadlineExceeded = false ∧ nr.combinedOutput = []) hn
    · rw [if_neg hrf]
      exact ⟨fun _ => rfl, fun _ => rfl⟩

theorem executeWithGoja_error_iff (ev : JsEval)
    (he : ∀ m, ev.execErr = some m → m ≠ []) :
    (executeWithGoja ev).exitCode = 0 ↔
      ((executeWithGoja ev).error = [] ∨
        (ev.timedOut = false ∧ ev.execErr = none ∧ joinNL ev.errors ≠ [])) := by
  by_cases ht : ev.timedOut = true
  · rw [executeWithGoja_timeout ht]
    constructor
    · intro h; exact absurd h ne_zero_124
    · rintro (h | ⟨hf, -, -⟩)
      · exact absurd h nonempty_timeout_msg
      · rw [ht] at hf; cases hf
  · cases hee : ev.execErr with
    | some m =>
      rw [executeWithGoja_err (bool_eq_false ht) hee]
      have hm := he m hee
      constructor
      · intro h; exact absurd h ne_zero_1
      · rintro (h | ⟨-, hnone, -⟩)
        · exfalso
          have h' : (if ev.errors ≠ [] then
              if m ≠ [] then m ++ '\n' :: joinNL ev.errors else joinNL ev.errors
            else m) = [] := h
          by_cases herrs : ev.errors ≠ []
          · rw [if_pos herrs, if_pos hm] at h'
            exact append_ne_nil_of_left hm h'
          · rw [if_neg herrs] at h'
            exact hm h'
        · cases hnone
    | none =>
      rw [executeWithGoja_ok (bool_eq_false ht) hee]
      constructor
      · intro _
        by_cases herrs : ev.errors ≠ []
        · by_cases hj : joinNL ev.errors = []
          · left
            show (if ev.errors ≠ [] then joinNL ev.errors else []) = []
            rw [if_pos herrs]
            exact hj
          · right
            exact ⟨bool_eq_false ht, rfl, hj⟩
        · left
          show (if ev.errors ≠ [] then joinNL ev.errors else []) = []
          rw [if_neg herrs]
      · intro _; rfl

theorem goExecute_error_iff (g : GoEnv)
    (hg1 : ∀ n, g.run.err = some (GoRunErr.exitErr n) → n ≠ 0)
    (hg2 : ∀ m, g.run.err = some (GoRunErr.otherErr m) → m ≠ []) :
    (goExecute g).exitCode = 0 ↔ (goExecute g).error = [] := by
  unfold goExecute
  by_cases hi : g.goInstalled = true
  · rw [if_neg (fun hc => hc hi)]
    cases htd : g.tempDirErr with
    | some m =>
      constructor
      · intro h; exact absurd h ne_zero_1
      · intro h; exact absurd h (append_ne_nil_of_left (by decide))
    | none =>
      dsimp only
      cases hw : g.writeErr with
      | some m =>
        constructor
        · intro h; exact absurd h ne_zero_1
        · intro h; exact absurd h (append_ne_nil_of_left (by decide))
      | none =>
        dsimp only
        cases herr : g.run.err with
        | none => exact ⟨fun _ => rfl, fun _ => rfl⟩
        | some e =>
          dsimp only
          by_cases hde : g.run.deadlineExceeded = true
          · rw [if_pos hde]
            constructor
            · intro h; exact absurd h ne_zero_124
            · intro h; exact absurd h nonempty_timeout_msg
          · rw [if_neg hde]
            constructor
            · intro h
              exfalso
              cases e with
              | exitErr n =>
                have hn0 : n = (0 : Int) := h
                exact hg1 n herr hn0
              | otherErr m => exact absurd h ne_zero_1
            · intro h
              exfalso
              cases e with
              | exitErr n =>
                have h' : (if trimSpace g.run.stderr ≠ [] then
                    cleanGoError (trimSpace g.run.stderr)
                  else "exit status ".toList ++ (toString n).toList) = [] := h
                by_cases hst : trimSpace g.run.stderr ≠ []
                · rw [if_pos hst] at h'
                  exact cleanGoError_ne_nil hst h'
                · rw [if_neg hst] at h'
                  exact append_ne_nil_of_left (by decide) h'
              | otherErr m =>
                have h' : (if trimSpace g.run.stderr ≠ [] then
                    cleanGoError (trimSpace g.run.stderr)
                  else m) = [] := h
                by_cases hst : trimSpace g.run.stderr ≠ []
                · rw [if_pos hst] at h'
                  exact cleanGoError_ne_nil hst h'
                · rw [if_neg hst] at h'
                  exact hg2 m herr h'
  · rw [if_pos (by rw [bool_eq_false hi]; exact Bool.false_ne_true)]
    constructor
    · intro h; exact absurd h ne_zero_150
    · intro h; exact absurd h nonempty_go_absent_msg

theorem pgExecute_error_iff (p : PgEnv) :
    (pgExecute p).1.exitCode = 0 ↔ (pgExecute p).1.error = [] := by
  unfold pgExecute
  by_cases ha : p.available = true
  · rw [if_neg (fun hc => hc ha)]
    by_cases hc : trimSpace (prepareSQLCode p.code) = []
    · rw [if_pos hc]
      constructor
      · intro h; exact absurd h ne_zero_153
      · intro h; exact absurd h nonempty_noquery_msg
    · rw [if_neg hc]
      cases hce : p.connErr with
      | some m =>
        constructor
        · intro h; exact absurd h ne_zero_152
        · intro h; exact absurd h (append_ne_nil_of_left (by decide))
      | none =>
        dsimp only
        cases hq : p.query with
        | err m =>
          dsimp only
          by_cases hde : p.deadlineExceeded = true
          · rw [if_pos hde]
            constructor
            · intro h; exact absurd h ne_zero_124
            · intro h; exact absurd h nonempty_query_timeout_msg
          · rw [if_neg hde]
            constructor
            · intro h; exact absurd h ne_zero_153
            · intro h; exact absurd h (append_ne_nil_of_left (by decide))
        | ok res => exact ⟨fun _ => rfl, fun _ => rfl⟩
  · rw [if_pos (by rw [bool_eq_false ha]; exact Bool.false_ne_true)]
    constructor
    · intro h; exact absurd h ne_zero_151
    · intro h; exact absurd h nonempty_pg_unavailable_msg

theorem tsExecute_silent {t : TsEnv} (hs : nodeSilentFailure t) :
    (tsExecute t).exitCode = 1 ∧ (tsExecute t).error = [] := by
  obtain ⟨h1, h2, h3, h4, h5, h6⟩ := hs
  unfold tsExecute
  rw [if_neg (fun hc => hc h1), if_pos h2, h2]
  exact executeWithNode_silent t.node h3 h4 h5 h6

theorem tsExecute_error_iff (t : TsEnv)
    (ht : ∀ m, t.goja.execErr = some m → m ≠ [])
    (hn : ¬ nodeSilentFailure t) :
    (tsExecute t).exitCode = 0 ↔
      ((tsExecute t).error = [] ∨ gojaConsoleErrSuccess t) := by
  unfold tsExecute
  by_cases h1 : t.transpileErrors ≠ []
  · rw [if_pos h1]
    constructor
    · intro h; exact absurd h ne_zero_2
    · rintro (h | hexc)
      · exact absurd h (append_ne_nil_of_left (by decide))
      · exact absurd hexc.1 h1
  · rw [if_neg h1]
    by_cases h2 : t.nodeAvailable = true
    · rw [if_pos h2]
      rw [show executeWithNode t.nodeAvailable t.node
        = executeWithNode true t.node from by rw [h2]]
      have hn' : ¬ (t.node.tempFileErr = none ∧ t.node.runFailed = true ∧
          t.node.deadlineExceeded = false ∧ t.node.combinedOutput = []) :=
        fun hq => hn ⟨not_not.mp h1, h2, hq.1, hq.2.1, hq.2.2.1, hq.2.2.2⟩
      have hiff := executeWithNode_error_iff t.node hn'
      constructor
      · intro h; exact Or.inl (hiff.mp h)
      · rintro (h | hexc)
        · exact hiff.mpr h
        · rw [hexc.2.1] at h2; cases h2
    · rw [if_neg h2]
      by_cases h3 : (executeWithGoja t.goja).exitCode ≠ 0 ∧
          isGojaUnsupported (executeWithGoja t.goja).error = true
      · rw [if_pos h3]
        constructor
        · intro h; exact absurd h ne_zero_160
        · rintro (h | hexc)
          · exact absurd h nonempty_goja_failed_msg
          · exact absurd (show (executeWithGoja t.goja).exitCode = 0 by
              rw [executeWithGoja_ok hexc.2.2.1 hexc.2.2.2.1]) h3.1
      · rw [if_neg h3]
        have hgiff := executeWithGoja_error_iff t.goja ht
        constructor
        · intro h
          rcases hgiff.mp h with h' | hexc
          · exact Or.inl h'
          · exact Or.inr ⟨not_not.mp h1, bool_eq_false h2, hexc⟩
        · rintro (h | hexc)
          · exact hgiff.mpr (Or.inl h)
          · exact hgiff.mpr (Or.inr hexc.2.2)

/-- Counterexample for C1: a sandbox evaluation that completes without a
runtime error but with a console.error call yields exit code 0 together with
a non-empty error (the console.error text), and 0 is not one of the reserved
dependency-missing codes; so exit code 0 does not imply an empty error. -/
theorem error_iff_counterexample :
    (tsExecute consoleErrTsEnv).exitCode = 0 ∧
    (tsExecute consoleErrTsEnv).error = "boom".toList ∧
    (tsExecute consoleErrTsEnv).error ≠ [] ∧
    (tsExecute consoleErrTsEnv).exitCode ∉ ([150, 151, 160] : List Int) := by
  decide

/-- Claim C1, amended: exit code 0 coincides with an empty error for the Go
and Postgres executors (assuming run errors carry non-empty messages and a
non-zero child status), and for the TypeScript executor with exactly two
exceptions: a sandbox evaluation that completes cleanly while console.error
wrote output returns exit code 0 with the console.error text in error, and a
node run that fails without producing any combined output returns exit code 1
with an empty error. The reserved dependency-missing codes 150, 151, 160
carry non-empty errors and respect the equivalence. -/
theorem error_iff_amended (t : TsEnv) (g : GoEnv) (p : PgEnv)
    (ht : ∀ m, t.goja.execErr = some m → m ≠ [])
    (hg1 : ∀ n, g.run.err = some (GoRunErr.exitErr n) → n ≠ 0)
    (hg2 : ∀ m, g.run.err = some (GoRunErr.otherErr m) → m ≠ []) :
    (nodeSilentFailure t →
      (tsExecute t).exitCode = 1 ∧ (tsExecute t).error = []) ∧
    (¬ nodeSilentFailure t →
      ((tsExecute t).exitCode = 0 ↔
        ((tsExecute t).error = [] ∨ gojaConsoleErrSuccess t))) ∧
    ((goExecute g).exitCode = 0 ↔ (goExecute g).error = []) ∧
    ((pgExecute p).1.exitCode = 0 ↔ (pgExecute p).1.error = []) :=
  ⟨fun hs => tsExecute_silent hs, fun hn => tsExecute_error_iff t ht hn,
   goExecute_error_iff g hg1 hg2, pgExecute_error_iff p⟩

/-- Witness for the amended C1 at concrete environments, exercising both the
console.error exception and the silent node failure. -/
theorem error_iff_amended_witness :
    ((tsExecute consoleErrTsEnv).exitCode = 0 ↔
      ((tsExecute consoleErrTsEnv).error = [] ∨
        gojaConsoleErrSuccess consoleErrTsEnv)) ∧
    ((tsExecute nodeSilentFailEnv).exitCode = 1 ∧
      (tsExecute nodeSilentFailEnv).error = []) ∧
    ((goExecute goEnvOk).exitCode = 0 ↔ (goExecute goEnvOk).error = []) ∧
    ((pgExecute pgEnvNotConfigured).1.exitCode = 0 ↔
      (pgExecute pgEnvNotConfigured).1.error = []) :=
  ⟨(error_iff_amended consoleErrTsEnv goEnvOk pgEnvNotConfigured
      (fun _ hm => nomatch hm) (fun _ hn2 => nomatch hn2)
      (fun _ hm => nomatch hm)).2.1 (fun hs => nomatch hs.2.1),
   (error_iff_amended nodeSilentFailEnv goEnvOk pgEnvNotConfigured
      (fun _ hm => nomatch hm) (fun _ hn2 => nomatch hn2)
      (fun _ hm => nomatch hm)).1 ⟨rfl, rfl, rfl, rfl, rfl, rfl⟩,
   (error_iff_amended consoleErrTsEnv goEnvOk pgEnvNotConfigured
      (fun _ hm => nomatch hm) (fun _ hn2 => nomatch hn2)
      (fun _ hm => nomatch hm)).2.2.1,
   (error_iff_amended consoleErrTsEnv goEnvOk pgEnvNotConfigured
      (fun _ hm => nomatch hm) (fun _ hn2 => nomatch hn2)
      (fun _ hm => nomatch hm)).2.2.2⟩

end Codezone
